import Mathlib

/-!
Verification of the in-memory store of the go-storage repository.

The embedding follows the generic in-memory backend: a key-value table
mapping string keys to entries with an absolute expiration timestamp
(nanoseconds, 0 meaning no expiry), and a queue table mapping queue names
to ordered sequences. Time is passed explicitly as an integer nanosecond
clock; each operation returns its post-state together with the values the
Go method returns, the trailing `Option String` standing for the Go
`error` result (`none` = nil).
-/

/-- An entry of the key-value table: a value paired with an absolute
expiration timestamp in nanoseconds; `0` means the entry never expires. -/
structure item (T : Type) where
  value : T
  expiration : Int

/-- Embeds `item.isExpired`: true iff the expiration timestamp is positive
and the current time strictly exceeds it. -/
def item.isExpired {T : Type} (i : item T) (now : Int) : Bool :=
  decide (0 < i.expiration) && decide (i.expiration < now)

/-- The in-memory store state: the key-value table and the queue table
(the two Go maps), as finite partial maps modelled by functions. -/
structure memoryStorage (T : Type) where
  items : String → Option (item T)
  queues : String → Option (List T)

/-- The state built by `newMemoryStorage`: both tables empty. -/
def memoryStorage.empty {T : Type} : memoryStorage T :=
  ⟨fun _ => none, fun _ => none⟩

/-- Embeds `memoryStorage.Set`: computes `expiration = now + ttl` when
`ttl > 0` (else 0), then overwrites the entry for `key`. Returns nil. -/
def memoryStorage.Set {T : Type} (s : memoryStorage T) (now : Int)
    (key : String) (value : T) (ttl : Int) : memoryStorage T × Option String :=
  let expiration : Int := if 0 < ttl then now + ttl else 0
  ({ s with items := fun k =>
      if k = key then some ⟨value, expiration⟩ else s.items k }, none)

/-- Embeds `memoryStorage.Get`: looks up the key; if absent or the entry
is expired returns the zero value and false, else the value and true.
The receiver state is returned unchanged (the method takes only a read
lock and performs no writes). -/
def memoryStorage.Get {T : Type} [Inhabited T] (s : memoryStorage T)
    (now : Int) (key : String) : memoryStorage T × T × Bool × Option String :=
  match s.items key with
  | none => (s, default, false, none)
  | some it =>
    if it.isExpired now then (s, default, false, none)
    else (s, it.value, true, none)

/-- Embeds `memoryStorage.Delete`: unconditionally removes the key. -/
def memoryStorage.Delete {T : Type} (s : memoryStorage T) (key : String) :
    memoryStorage T × Option String :=
  ({ s with items := fun k => if k = key then none else s.items k }, none)

/-- Embeds `memoryStorage.Enqueue`: appends to the tail of the named
queue; a missing map entry reads as the nil slice. -/
def memoryStorage.Enqueue {T : Type} (s : memoryStorage T)
    (queueName : String) (value : T) : memoryStorage T × Option String :=
  let cur := (s.queues queueName).getD []
  ({ s with queues := fun n =>
      if n = queueName then some (cur ++ [value]) else s.queues n }, none)

/-- Embeds `memoryStorage.Dequeue`: pops the head of the named queue;
when the remainder is empty the map entry is deleted; absent or empty
queues yield the zero value and false. -/
def memoryStorage.Dequeue {T : Type} [Inhabited T] (s : memoryStorage T)
    (queueName : String) : memoryStorage T × T × Bool × Option String :=
  match s.queues queueName with
  | none => (s, default, false, none)
  | some [] => (s, default, false, none)
  | some (value :: rest) =>
    if rest.isEmpty then
      ({ s with queues := fun n =>
          if n = queueName then none else s.queues n }, value, true, none)
    else
      ({ s with queues := fun n =>
          if n = queueName then some rest else s.queues n }, value, true, none)

/-- Embeds `memoryStorage.Peek`: returns the head of the named queue
without removing it; absent or empty queues yield false. -/
def memoryStorage.Peek {T : Type} [Inhabited T] (s : memoryStorage T)
    (queueName : String) : memoryStorage T × T × Bool × Option String :=
  match s.queues queueName with
  | none => (s, default, false, none)
  | some [] => (s, default, false, none)
  | some (value :: _) => (s, value, true, none)

/-- Embeds `memoryStorage.Remove`: drops the head without returning it,
with the same empty-queue cleanup as Dequeue; absent or empty queues
yield false. -/
def memoryStorage.Remove {T : Type} (s : memoryStorage T)
    (queueName : String) : memoryStorage T × Bool × Option String :=
  match s.queues queueName with
  | none => (s, false, none)
  | some [] => (s, false, none)
  | some (_ :: rest) =>
    if rest.isEmpty then
      ({ s with queues := fun n =>
          if n = queueName then none else s.queues n }, true, none)
    else
      ({ s with queues := fun n =>
          if n = queueName then some rest else s.queues n }, true, none)

/-- Embeds `memoryStorage.QueueLen`: the length of the named queue, 0 if
it does not exist. -/
def memoryStorage.QueueLen {T : Type} (s : memoryStorage T)
    (queueName : String) : memoryStorage T × Int × Option String :=
  match s.queues queueName with
  | none => (s, 0, none)
  | some queue => (s, (queue.length : Int), none)

/-- Embeds `memoryStorage.deleteExpired` (one Reaper sweep): removes from
the key-value table every entry that is expired at sweep time. -/
def memoryStorage.deleteExpired {T : Type} (s : memoryStorage T)
    (now : Int) : memoryStorage T :=
  { s with items := fun k =>
      match s.items k with
      | some it => if it.isExpired now then none else some it
      | none => none }

/-- Runs a sequence of Enqueue calls on one queue. -/
def enqueueList {T : Type} : memoryStorage T → String → List T → memoryStorage T
  | s, _, [] => s
  | s, q, v :: vs => enqueueList (s.Enqueue q v).1 q vs

/-- Runs n Dequeue calls on one queue, collecting the (value, found)
pairs in call order. -/
def dequeueList {T : Type} [Inhabited T] :
    memoryStorage T → String → Nat → memoryStorage T × List (T × Bool)
  | s, _, 0 => (s, [])
  | s, q, n + 1 =>
    let r := s.Dequeue q
    let rest := dequeueList r.1 q n
    (rest.1, (r.2.1, r.2.2.1) :: rest.2)

/-- The queue-table invariant: no queue name is mapped to an empty
sequence; a drained queue has its mapping removed. -/
def queuesInvariant {T : Type} (s : memoryStorage T) : Prop :=
  ∀ q : String, s.queues q ≠ some ([] : List T)

/-- A concrete empty store over Nat, for witness instantiations. -/
def store0 : memoryStorage Nat := memoryStorage.empty

/-- A concrete store holding key "k" with value 42 and expiration 10. -/
def store1 : memoryStorage Nat := (store0.Set 0 "k" 42 10).1

theorem store1_items_k : store1.items "k" = some ⟨42, 10⟩ := rfl

/-- Claim C1: Get returns found = true together with the stored value
exactly when the key-value table maps the key to an entry whose expiry
has not passed at read time; it returns found = false both when the key
is absent and when the stored entry is expired (lazy expiry on read,
independent of any Reaper sweep). -/
theorem Get_found_iff_live {T : Type} [Inhabited T] (s : memoryStorage T)
    (now : Int) (k : String) :
    ((s.Get now k).2.2.1 = true ↔
      ∃ it, s.items k = some it ∧ it.isExpired now = false) ∧
    (∀ it, s.items k = some it → it.isExpired now = false →
      (s.Get now k).2.1 = it.value ∧ (s.Get now k).2.2.1 = true) ∧
    (s.items k = none → (s.Get now k).2.2.1 = false) ∧
    (∀ it, s.items k = some it → it.isExpired now = true →
      (s.Get now k).2.2.1 = false) := by
  unfold memoryStorage.Get
  cases hk : s.items k with
  | none => simp
  | some it =>
    by_cases he : it.isExpired now
    · simp [he]
    · simp [he]

/-- Claim C1 witness: in a concrete store, Get at time 5 finds the live
entry for key "k", and Get at time 100 reports it expired. -/
theorem Get_found_iff_live_witness :
    (store1.Get 5 "k").2.1 = 42 ∧ (store1.Get 5 "k").2.2.1 = true ∧
    (store1.Get 100 "k").2.2.1 = false := by
  refine ⟨((Get_found_iff_live store1 5 "k").2.1 ⟨42, 10⟩ rfl rfl).1,
    ((Get_found_iff_live store1 5 "k").2.1 ⟨42, 10⟩ rfl rfl).2,
    (Get_found_iff_live store1 100 "k").2.2.2 ⟨42, 10⟩ rfl rfl⟩

/-- Claim C2: Set always succeeds (nil error) and overwrites any existing
entry for the key with a fresh entry whose absolute expiry is now + ttl
when ttl > 0 and 0 (never expires) when ttl <= 0; in the latter case Get
returns the value with found = true at every later read time, and other
keys and the queue table are untouched. -/
theorem Set_ttl_semantics {T : Type} [Inhabited T] (s : memoryStorage T)
    (now : Int) (k : String) (v : T) (ttl : Int) :
    (s.Set now k v ttl).2 = none ∧
    ((s.Set now k v ttl).1).items k =
      some ⟨v, if 0 < ttl then now + ttl else 0⟩ ∧
    (∀ k', k' ≠ k → ((s.Set now k v ttl).1).items k' = s.items k') ∧
    ((s.Set now k v ttl).1).queues = s.queues ∧
    (ttl ≤ 0 → ∀ t : Int, ((s.Set now k v ttl).1).Get t k =
      ((s.Set now k v ttl).1, v, true, none)) := by
  refine ⟨rfl, by simp [memoryStorage.Set], ?_, rfl, ?_⟩
  · intro k' hk'
    simp [memoryStorage.Set, hk']
  · intro httl t
    have hle : ¬ 0 < ttl := not_lt.mpr httl
    simp [memoryStorage.Get, memoryStorage.Set, hle, item.isExpired]

/-- Claim C2 witness: Set with ttl = 0 stores an entry that Get still
finds at an arbitrarily late time. -/
theorem Set_ttl_semantics_witness :
    ((store0.Set 0 "p" 7 0).1).Get 1000000 "p" =
      ((store0.Set 0 "p" 7 0).1, 7, true, none) :=
  (Set_ttl_semantics store0 0 "p" 7 0).2.2.2.2 (by decide) 1000000

/-- Claim C6: Get is a pure observation: it returns the receiver state
unchanged (both tables), and in particular reading an expired but not yet
reaped entry does not delete that entry from the table. -/
theorem Get_pure_observation {T : Type} [Inhabited T] (s : memoryStorage T)
    (now : Int) (k : String) :
    (s.Get now k).1 = s ∧
    (∀ it, s.items k = some it → ((s.Get now k).1).items k = some it) := by
  unfold memoryStorage.Get
  cases hk : s.items k with
  | none => simp
  | some it =>
    by_cases he : it.isExpired now
    · simp [he, hk]
    · simp [he, hk]

/-- Claim C6 witness: reading key "k" at time 100, when its entry with
expiration 10 is already expired, leaves the entry in the table. -/
theorem Get_pure_observation_witness :
    ((store1.Get 100 "k").1).items "k" = some ⟨42, 10⟩ :=
  (Get_pure_observation store1 100 "k").2 ⟨42, 10⟩ rfl

/-- Claim C10: expiry uses a strict comparison at the boundary: at the
instant exactly equal to the stored expiration timestamp the entry is not
expired, Get still returns the value with found = true, and a Reaper
sweep does not remove the entry. -/
theorem expiry_boundary_strict {T : Type} [Inhabited T] (s : memoryStorage T)
    (k : String) (it : item T) (h : s.items k = some it)
    (_hpos : 0 < it.expiration) :
    it.isExpired it.expiration = false ∧
    (s.Get it.expiration k).2.1 = it.value ∧
    (s.Get it.expiration k).2.2.1 = true ∧
    (s.deleteExpired it.expiration).items k = some it := by
  have hexp : it.isExpired it.expiration = false := by
    simp [item.isExpired]
  refine ⟨hexp, ?_, ?_, ?_⟩
  · simp [memoryStorage.Get, h, hexp]
  · simp [memoryStorage.Get, h, hexp]
  · simp [memoryStorage.deleteExpired, h, hexp]

/-- Claim C10 witness: at time exactly 10, the entry for "k" with
expiration 10 is served by Get and survives a Reaper sweep. -/
theorem expiry_boundary_strict_witness :
    (store1.Get 10 "k").2.2.1 = true ∧
    (store1.deleteExpired 10).items "k" = some ⟨42, 10⟩ := by
  refine ⟨(expiry_boundary_strict store1 "k" ⟨42, 10⟩ rfl (by decide)).2.2.1,
    (expiry_boundary_strict store1 "k" ⟨42, 10⟩ rfl (by decide)).2.2.2⟩

/-- Claim C5: a Reaper sweep removes from the key-value table exactly the
entries expired at sweep time: after the sweep a key is unmapped iff it
was absent or its entry was expired, every unexpired entry survives
unchanged, and the queue table is untouched. -/
theorem deleteExpired_removes_exactly_expired {T : Type} (s : memoryStorage T)
    (now : Int) (k : String) :
    ((s.deleteExpired now).items k = none ↔
      s.items k = none ∨ ∃ it, s.items k = some it ∧ it.isExpired now = true) ∧
    (∀ it, s.items k = some it → it.isExpired now = false →
      (s.deleteExpired now).items k = some it) ∧
    (s.deleteExpired now).queues = s.queues := by
  unfold memoryStorage.deleteExpired
  cases hk : s.items k with
  | none => simp [hk]
  | some it =>
    by_cases he : it.isExpired now
    · simp [hk, he]
    · simp [hk, he]

/-- Claim C5 witness: sweeping at time 100 deletes the expired entry for
"k" (expiration 10), while sweeping at time 5 keeps it. -/
theorem deleteExpired_removes_exactly_expired_witness :
    (store1.deleteExpired 100).items "k" = none ∧
    (store1.deleteExpired 5).items "k" = some ⟨42, 10⟩ := by
  refine ⟨(deleteExpired_removes_exactly_expired store1 100 "k").1.mpr
      (Or.inr ⟨⟨42, 10⟩, rfl, rfl⟩),
    (deleteExpired_removes_exactly_expired store1 5 "k").2.1 ⟨42, 10⟩ rfl rfl⟩

/-- Claim C7: Remove produces exactly the post-state Dequeue would
produce on the same state, its boolean result equals the found flag
Dequeue would return, it returns true exactly when the queue had a head
element, and on an absent or empty queue it returns false and leaves the
state unchanged. -/
theorem Remove_equiv_Dequeue {T : Type} [Inhabited T] (s : memoryStorage T)
    (q : String) :
    (s.Remove q).1 = (s.Dequeue q).1 ∧
    (s.Remove q).2.1 = (s.Dequeue q).2.2.1 ∧
    (∀ v rest, s.queues q = some (v :: rest) → (s.Remove q).2.1 = true) ∧
    ((s.queues q = none ∨ s.queues q = some []) →
      (s.Remove q).2.1 = false ∧ (s.Remove q).1 = s) := by
  unfold memoryStorage.Remove memoryStorage.Dequeue
  cases hq : s.queues q with
  | none => simp
  | some l =>
    cases l with
    | nil => simp
    | cons v rest =>
      cases rest with
      | nil => simp
      | cons w ws => simp

/-- Claim C7 witness: on a concrete one-element queue, Remove and Dequeue
leave the same queue table and report the same flag. -/
theorem Remove_equiv_Dequeue_witness :
    (((store0.Enqueue "q" 3).1).Remove "q").2.1 =
      (((store0.Enqueue "q" 3).1).Dequeue "q").2.2.1 ∧
    ((((store0.Enqueue "q" 3).1).Remove "q").1).queues "q" = none :=
  ⟨(Remove_equiv_Dequeue ((store0.Enqueue "q" 3).1) "q").2.1, rfl⟩

/-- Claim C8: Peek returns the head element with found = true on a
non-empty queue and found = false on an absent or empty queue; it never
changes the store, QueueLen is identical before and after, and a repeated
Peek returns the same result. -/
theorem Peek_head_and_frame {T : Type} [Inhabited T] (s : memoryStorage T)
    (q : String) :
    (s.Peek q).1 = s ∧
    (∀ v rest, s.queues q = some (v :: rest) →
      (s.Peek q).2.1 = v ∧ (s.Peek q).2.2.1 = true) ∧
    ((s.queues q = none ∨ s.queues q = some []) →
      (s.Peek q).2.2.1 = false) ∧
    (((s.Peek q).1).QueueLen q).2.1 = (s.QueueLen q).2.1 ∧
    ((s.Peek q).1).Peek q = s.Peek q := by
  have hstate : (s.Peek q).1 = s := by
    unfold memoryStorage.Peek
    cases hq : s.queues q with
    | none => simp
    | some l => cases l <;> simp
  refine ⟨hstate, ?_, ?_, by rw [hstate], by rw [hstate]⟩
  · intro v rest hq
    simp [memoryStorage.Peek, hq]
  · intro hq
    rcases hq with hq | hq <;> simp [memoryStorage.Peek, hq]

/-- Claim C8 witness: peeking a concrete one-element queue returns its
head with found = true and leaves the queue length at 1. -/
theorem Peek_head_and_frame_witness :
    (((store0.Enqueue "q" 9).1).Peek "q").2.1 = 9 ∧
    (((((store0.Enqueue "q" 9).1).Peek "q").1).QueueLen "q").2.1 = 1 := by
  refine ⟨((Peek_head_and_frame ((store0.Enqueue "q" 9).1) "q").2.1 9 []
      (by simp [memoryStorage.Enqueue, store0, memoryStorage.empty])).1, ?_⟩
  have h := (Peek_head_and_frame ((store0.Enqueue "q" 9).1) "q").2.2.2.1
  simpa using h

/-- Claim C9: no in-memory operation ever returns an error: every
operation returns a nil error component on every input and state, Delete
of an absent key leaves the key-value table pointwise unchanged, and
Dequeue, Peek and Remove on an absent queue report false rather than an
error and leave the state unchanged. -/
theorem ops_never_error {T : Type} [Inhabited T] (s : memoryStorage T)
    (now : Int) (k : String) (v : T) (ttl : Int) (q : String) :
    (s.Set now k v ttl).2 = none ∧
    (s.Get now k).2.2.2 = none ∧
    (s.Delete k).2 = none ∧
    (s.Enqueue q v).2 = none ∧
    (s.Dequeue q).2.2.2 = none ∧
    (s.Peek q).2.2.2 = none ∧
    (s.Remove q).2.2 = none ∧
    (s.QueueLen q).2.2 = none ∧
    (s.items k = none → ∀ k', ((s.Delete k).1).items k' = s.items k') ∧
    (s.queues q = none → (s.Dequeue q).1 = s ∧ (s.Dequeue q).2.2.1 = false ∧
      (s.Peek q).2.2.1 = false ∧ (s.Remove q).2.1 = false) := by
  refine ⟨rfl, ?_, rfl, rfl, ?_, ?_, ?_, ?_, ?_, ?_⟩
  · unfold memoryStorage.Get
    cases s.items k with
    | none => rfl
    | some it =>
      by_cases he : it.isExpired now <;> simp [he]
  · unfold memoryStorage.Dequeue
    cases s.queues q with
    | none => rfl
    | some l =>
      cases l with
      | nil => rfl
      | cons w ws => cases ws <;> simp
  · unfold memoryStorage.Peek
    cases s.queues q with
    | none => rfl
    | some l => cases l <;> rfl
  · unfold memoryStorage.Remove
    cases s.queues q with
    | none => rfl
    | some l =>
      cases l with
      | nil => rfl
      | cons w ws => cases ws <;> simp
  · unfold memoryStorage.QueueLen
    cases s.queues q with
    | none => rfl
    | some l => rfl
  · intro hk k'
    by_cases h : k' = k
    · simp [memoryStorage.Delete, h, hk]
    · simp [memoryStorage.Delete, h]
  · intro hq
    refine ⟨?_, ?_, ?_, ?_⟩ <;>
      simp [memoryStorage.Dequeue, memoryStorage.Peek, memoryStorage.Remove, hq]

/-- Claim C9 witness: on the empty store, deleting an absent key keeps
the table unchanged and Dequeue, Peek and Remove on an absent queue
report false with nil errors. -/
theorem ops_never_error_witness :
    ((store0.Delete "k").1).items "x" = store0.items "x" ∧
    (store0.Dequeue "q").2.2.1 = false ∧
    (store0.Peek "q").2.2.1 = false ∧
    (store0.Remove "q").2.1 = false := by
  have h := ops_never_error store0 0 "k" 1 0 "q"
  exact ⟨h.2.2.2.2.2.2.2.2.1 rfl "x", (h.2.2.2.2.2.2.2.2.2 rfl).2.1,
    (h.2.2.2.2.2.2.2.2.2 rfl).2.2.1, (h.2.2.2.2.2.2.2.2.2 rfl).2.2.2⟩

theorem Get_state_eq {T : Type} [Inhabited T] (s : memoryStorage T)
    (now : Int) (k : String) : (s.Get now k).1 = s := by
  unfold memoryStorage.Get
  cases s.items k with
  | none => rfl
  | some it => by_cases he : it.isExpired now <;> simp [he]

theorem Peek_state_eq {T : Type} [Inhabited T] (s : memoryStorage T)
    (q : String) : (s.Peek q).1 = s := by
  unfold memoryStorage.Peek
  cases s.queues q with
  | none => rfl
  | some l => cases l <;> rfl

theorem QueueLen_state_eq {T : Type} (s : memoryStorage T)
    (q : String) : (s.QueueLen q).1 = s := by
  unfold memoryStorage.QueueLen
  cases s.queues q with
  | none => rfl
  | some l => rfl

theorem enqueueList_queues {T : Type} (q : String) :
    ∀ (vs : List T) (s : memoryStorage T) (cur : List T),
      s.queues q = some cur →
      (enqueueList s q vs).queues q = some (cur ++ vs) := by
  intro vs
  induction vs with
  | nil =>
    intro s cur h
    simpa [enqueueList] using h
  | cons v vs ih =>
    intro s cur h
    have h1 : ((s.Enqueue q v).1).queues q = some (cur ++ [v]) := by
      simp [memoryStorage.Enqueue, h]
    have h2 := ih (s.Enqueue q v).1 (cur ++ [v]) h1
    simpa [enqueueList, List.append_assoc] using h2

theorem dequeueList_drains {T : Type} [Inhabited T] (q : String) :
    ∀ (l : List T) (s : memoryStorage T), (s.queues q).getD [] = l →
      (dequeueList s q l.length).2 = l.map (fun v => (v, true)) := by
  intro l
  induction l with
  | nil =>
    intro s h
    simp [dequeueList]
  | cons v rest ih =>
    intro s h
    have hq : s.queues q = some (v :: rest) := by
      cases hq : s.queues q with
      | none => rw [hq] at h; simp at h
      | some l' => rw [hq] at h; simp at h; rw [h]
    have hr : (s.Dequeue q).2.1 = v ∧ (s.Dequeue q).2.2.1 = true ∧
        (((s.Dequeue q).1).queues q).getD [] = rest := by
      unfold memoryStorage.Dequeue
      rw [hq]
      cases rest with
      | nil => simp
      | cons w ws => simp
    have ihh := ih (s.Dequeue q).1 hr.2.2
    simp [dequeueList, hr.1, hr.2.1, ihh]

/-- Claim C3: FIFO law: enqueueing v1..vn on a queue with no prior
elements and then dequeueing n times returns (v1, true), ..., (vn, true)
in exactly that order. -/
theorem fifo_enqueue_dequeue {T : Type} [Inhabited T] (s : memoryStorage T)
    (q : String) (vs : List T) (h : (s.queues q).getD [] = []) :
    (dequeueList (enqueueList s q vs) q vs.length).2 =
      vs.map (fun v => (v, true)) := by
  cases vs with
  | nil => simp [enqueueList, dequeueList]
  | cons v vs =>
    have h1 : ((s.Enqueue q v).1).queues q = some [v] := by
      simp [memoryStorage.Enqueue, h]
    have h2 := enqueueList_queues q vs (s.Enqueue q v).1 [v] h1
    have h3 : ((enqueueList s q (v :: vs)).queues q).getD [] = v :: vs := by
      show ((enqueueList (s.Enqueue q v).1 q vs).queues q).getD [] = v :: vs
      rw [h2]
      rfl
    exact dequeueList_drains q (v :: vs) _ h3

/-- Claim C3 witness: enqueueing 1, 2, 3 on a fresh queue and dequeueing
three times yields (1, true), (2, true), (3, true) in order. -/
theorem fifo_enqueue_dequeue_witness :
    (dequeueList (enqueueList store0 "q" [1, 2, 3]) "q" 3).2 =
      [(1, true), (2, true), (3, true)] := by
  have h := fifo_enqueue_dequeue store0 "q" [1, 2, 3] rfl
  simpa using h

/-- Claim C4: every store operation preserves the invariant that the
queue table never maps a name to an empty sequence (a drained queue has
its mapping removed), and an absent queue has QueueLen 0 while a
subsequent Enqueue starts a fresh one-element queue. -/
theorem queue_table_never_empty {T : Type} [Inhabited T] (s : memoryStorage T)
    (hinv : queuesInvariant s) (now : Int) (k : String) (v : T) (ttl : Int)
    (q : String) :
    queuesInvariant ((s.Set now k v ttl).1) ∧
    queuesInvariant ((s.Get now k).1) ∧
    queuesInvariant ((s.Delete k).1) ∧
    queuesInvariant ((s.Enqueue q v).1) ∧
    queuesInvariant ((s.Dequeue q).1) ∧
    queuesInvariant ((s.Peek q).1) ∧
    queuesInvariant ((s.Remove q).1) ∧
    queuesInvariant ((s.QueueLen q).1) ∧
    queuesInvariant (s.deleteExpired now) ∧
    (s.queues q = none →
      (s.QueueLen q).2.1 = 0 ∧ ((s.Enqueue q v).1).queues q = some [v]) := by
  refine ⟨hinv, ?_, hinv, ?_, ?_, ?_, ?_, ?_, hinv, ?_⟩
  · rw [Get_state_eq]; exact hinv
  · intro q'
    by_cases h : q' = q
    · simp [memoryStorage.Enqueue, h]
    · simpa [memoryStorage.Enqueue, h] using hinv q'
  · intro q'
    unfold memoryStorage.Dequeue
    cases hq : s.queues q with
    | none => exact hinv q'
    | some l =>
      cases l with
      | nil => exact hinv q'
      | cons w ws =>
        cases ws with
        | nil =>
          by_cases h : q' = q
          · simp [h]
          · simpa [h] using hinv q'
        | cons x xs =>
          by_cases h : q' = q
          · simp [h]
          · simpa [h] using hinv q'
  · rw [Peek_state_eq]; exact hinv
  · intro q'
    unfold memoryStorage.Remove
    cases hq : s.queues q with
    | none => exact hinv q'
    | some l =>
      cases l with
      | nil => exact hinv q'
      | cons w ws =>
        cases ws with
        | nil =>
          by_cases h : q' = q
          · simp [h]
          · simpa [h] using hinv q'
        | cons x xs =>
          by_cases h : q' = q
          · simp [h]
          · simpa [h] using hinv q'
  · rw [QueueLen_state_eq]; exact hinv
  · intro hq
    constructor
    · simp [memoryStorage.QueueLen, hq]
    · simp [memoryStorage.Enqueue, hq]

/-- Claim C4 witness: enqueueing on an absent queue of the empty store
starts a fresh one-element queue, and its QueueLen was 0. -/
theorem queue_table_never_empty_witness :
    (store0.QueueLen "q").2.1 = 0 ∧
    ((store0.Enqueue "q" 1).1).queues "q" = some [1] :=
  (queue_table_never_empty store0 (fun _ h => Option.noConfusion h)
    0 "k" 1 0 "q").2.2.2.2.2.2.2.2.2 rfl
